import Mathlib

/-!
# Verification of the Canvas MCP assignment-discovery core

Shallow embedding of the repository "Assignment Discovery & Content
Normalization" core (src/src/mcpCore.ts, plus the stdio entry point in
src/unnamed/part_000) together with proofs about the claims of its
specification.

Modelling conventions:

* JavaScript instants are modelled as `Int`, milliseconds since the epoch in
  the local clock of the runtime (a fixed-offset local time, no DST).  All the
  comparisons performed by the source (`getTime`, `setHours`) are then plain
  integer operations.
* Nullable strings (`string | null` / optional parameters) are `Option String`;
  JavaScript truthiness of such a value (`if (s)`) is `strTruthy` (false for
  `null`/`undefined` and for the empty string).
* `new Date(string)` on a string that does *not* have the bare `YYYY-MM-DD`
  shape is ECMA-262 implementation-dependent (beyond the ISO format); it is
  modelled by the environment field `JsEnv.dateCtor`, with `none` standing for
  an `Invalid Date` (`NaN` time value).  The bare-date branch of `parseDate`
  and the `new Date(year, month, day)` constructor are fully specified by
  ECMA-262 (`MakeDay`, proleptic Gregorian calendar with component rollover
  and the 1900-shift of two-digit years) and are embedded concretely.
* The remote Canvas API accessor is a structure of functions returning
  `Except String …`; a thrown JS error is the `.error` case carrying the
  thrown message (`canvasApiRequest` throws
  `Canvas API error: ${status} - ${body}`).
* `Array.prototype.sort` is stable (ES2019); it is embedded as a stable
  insertion sort over the comparator of the source.  When the comparator is
  consistent this is the unique output ECMA-262 allows.
-/

/-! ## JavaScript value helpers -/

/-- Truthiness test of a nullable string: `null`, `undefined` and `""` are
falsy, every other string is truthy. -/
def strFalsy : Option String → Bool
  | none => true
  | some s => s.data.isEmpty

def strTruthy (o : Option String) : Bool := !(strFalsy o)

/-- ASCII lower-casing of one character (JS `toLowerCase`, restricted to the
ASCII range; non-ASCII letters are kept as they are in this model). -/
def lcChar (c : Char) : Char :=
  if 'A' ≤ c ∧ c ≤ 'Z' then Char.ofNat (c.toNat + 32) else c

/-- `String.prototype.toLowerCase` (ASCII model). -/
def lowerStr (s : String) : String := ⟨s.data.map lcChar⟩

/-- `needle` occurs at the head of `hay`. -/
def startsChars : List Char → List Char → Bool
  | [], _ => true
  | _ :: _, [] => false
  | n :: ns, h :: hs => n == h && startsChars ns hs

/-- `hay` has `needle` as a contiguous substring (JS `String.prototype.includes`). -/
def charsHave (needle : List Char) : List Char → Bool
  | [] => startsChars needle []
  | h :: hs => startsChars needle (h :: hs) || charsHave needle hs

/-- JS `a.includes(b)`: `strIncl needle hay`. -/
def strIncl (needle hay : String) : Bool := charsHave needle.data hay.data

/-- The whitespace class `\s` of JS regular expressions (common members). -/
def jsWs (c : Char) : Bool :=
  c = ' ' || c = '\t' || c = '\n' || c = '\r' || c = '\x0b' || c = '\x0c' ||
  c = ' ' || c = '﻿'

/-- `s.split(/\s+/)` over the characters: the pieces of the string around
maximal nonempty whitespace runs (a leading or trailing run contributes an
empty piece, and the split of the empty string is one empty piece, as in
JS). -/
def splitWsRuns : List Char → List (List Char)
  | [] => [[]]
  | c :: cs =>
    let r := splitWsRuns cs
    if jsWs c then
      match cs with
      | c' :: _ => if jsWs c' then r else [] :: r
      | [] => [] :: r
    else
      match r with
      | [] => [[c]]
      | g :: gs => (c :: g) :: gs

/-- `s.split(/\s+/)` on strings. -/
def splitWs (s : String) : List String := (splitWsRuns s.data).map (fun g => ⟨g⟩)

/-! ## Date utility (src/src/mcpCore.ts lines 110-158) -/

/-- Environment-provided behaviour of the JS runtime that the code of this
repository calls into but that is outside the repository: generic `new Date(string)`
parsing (beyond the bare-date branch the source handles itself), the JSDOM
`textContent` renderer used by the stdio entry point, and
`Date.prototype.toLocaleString` display formatting. -/
structure JsEnv where
  /-- `new Date(s).getTime()` for a string `s` that is not handled by the
  own bare `YYYY-MM-DD` branch; `none` models `Invalid Date`. -/
  dateCtor : String → Option Int
  /-- JSDOM plain-text rendering (`dom.window.document.body.textContent`). -/
  jsdomText : String → String
  /-- `new Date(s).toLocaleString()` display rendering of a date string. -/
  displayDate : String → String

/-- Days since 1970-01-01 of a proleptic-Gregorian civil date (the calendar
of ECMA-262 `MakeDay`). -/
def daysFromCivil (y m d : Int) : Int :=
  let y' : Int := if m ≤ 2 then y - 1 else y
  let era : Int := y'.fdiv 400
  let yoe : Int := y' - era * 400
  let mp : Int := if m > 2 then m - 3 else m + 9
  let doy : Int := (153 * mp + 2).fdiv 5 + d - 1
  let doe : Int := yoe * 365 + yoe.fdiv 4 - yoe.fdiv 100 + doy
  era * 146097 + doe - 719468

/-- `new Date(y, m, d).getTime()` at local midnight: ECMA-262 `MakeDay` with
month/day rollover, the 1900 shift of years 0-99, and `TimeClip` (`none` is
`Invalid Date`).  `m` is the 0-based month as passed by the source. -/
def jsDateCtorMs (y m d : Int) : Option Int :=
  let yy : Int := if 0 ≤ y ∧ y ≤ 99 then 1900 + y else y
  let ym : Int := yy + m.fdiv 12
  let mn : Int := m - 12 * m.fdiv 12
  let days : Int := daysFromCivil ym (mn + 1) 1 + (d - 1)
  let ms : Int := days * 86400000
  if ms.natAbs ≤ 8640000000000000 then some ms else none

def isDigitCh (c : Char) : Bool := '0' ≤ c && c ≤ '9'

/-- The test `dateStr.match(/^\d{4}-\d{2}-\d{2}$/)`. -/
def bareShape (s : String) : Bool :=
  match s.data with
  | [a, b, c, d, e, f, g, h, i, j] =>
    isDigitCh a && isDigitCh b && isDigitCh c && isDigitCh d && e = '-' &&
    isDigitCh f && isDigitCh g && h = '-' && isDigitCh i && isDigitCh j
  | _ => false

/-- `Number` applied to a run of decimal digits. -/
def digitsVal (cs : List Char) : Nat :=
  cs.foldl (fun n c => n * 10 + (c.toNat - 48)) 0

/-- `parseDate` (mcpCore lines 122-136): `null`/empty input gives `null`;
a bare `YYYY-MM-DD` string goes through `new Date(year, month - 1, day)`
(local calendar); anything else goes through generic `new Date(dateStr)`.
The function is total: it never raises. -/
def parseDate (env : JsEnv) (dateStr : Option String) : Option Int :=
  if strFalsy dateStr then none
  else
    let s := dateStr.getD ""
    if bareShape s then
      let cs := s.data
      let y : Int := digitsVal (cs.take 4)
      let mo : Int := digitsVal ((cs.drop 5).take 2)
      let d : Int := digitsVal (cs.drop 8)
      jsDateCtorMs y (mo - 1) d
    else
      env.dateCtor s

/-- `date.setHours(0, 0, 0, 0)`: local midnight of the day of the instant. -/
def dayStart (t : Int) : Int := t - t % 86400000

/-- `date.setHours(23, 59, 59, 999)`: last millisecond of the day of the instant. -/
def dayEnd (t : Int) : Int := dayStart t + 86399999

/-- `isDateInRange` (mcpCore lines 138-158).  A missing or unparsable due
date always matches; a truthy, parsable `before` bound excludes instants
after 23:59:59.999 of its day; a truthy, parsable `after` bound excludes
instants before 00:00:00.000 of its day. -/
def isDateInRange (env : JsEnv) (date before after : Option String) : Bool :=
  if strFalsy date then true
  else
    match parseDate env date with
    | none => true
    | some due =>
      let beforeHit : Bool :=
        strTruthy before &&
          (match parseDate env before with
           | some b => decide (due > dayEnd b)
           | none => false)
      let afterHit : Bool :=
        strTruthy after &&
          (match parseDate env after with
           | some a => decide (due < dayStart a)
           | none => false)
      if beforeHit then false else if afterHit then false else true

/-- `formatDate` (mcpCore lines 110-120). -/
def formatDate (env : JsEnv) (dateStr : Option String) : String :=
  if strFalsy dateStr then "No date set"
  else
    let s := dateStr.getD ""
    match env.dateCtor s with
    | none => "Invalid date"
    | some _ => env.displayDate s

/-- Length of a month of the proleptic Gregorian calendar, for stating which
bare dates are calendar-valid. -/
def monthLen (y : Int) (m : Nat) : Nat :=
  if m = 2 then (if (y % 4 = 0 ∧ y % 100 ≠ 0) ∨ y % 400 = 0 then 29 else 28)
  else if m = 4 ∨ m = 6 ∨ m = 9 ∨ m = 11 then 30
  else 31

/-! ## Markup normalizer (src/src/mcpCore.ts lines 69-108)

The source applies an ordered chain of global regex replacements, not a real
HTML parser.  Each pass below is a left-to-right scan implementing the
corresponding JS regex semantics: leftmost match, lazy `(.*?)` content
(shortest closing tag), greedy `[^>]*` attribute runs, case-insensitive tag
literals, dot not matching a newline unless the pattern has the `s` flag,
and `/g` continuation after the end of the previous match.  The scans use a
fuel argument (always called with more fuel than the input length, and each
step consumes at least one input character), keeping every definition a
total executable function. -/

/-- Case-insensitive comparison of two characters (ASCII fold), as done by
the `i` flag on the tag-literal parts of the patterns of the source. -/
def ciEq (a b : Char) : Bool := lcChar a == lcChar b

/-- Match the literal `pat` at the head of `cs` (case-insensitively when
`ci`), returning the matched original characters and the remainder. -/
def matchLit (ci : Bool) : List Char → List Char → Option (List Char × List Char)
  | [], cs => some ([], cs)
  | _ :: _, [] => none
  | p :: ps, c :: cs =>
    if (if ci then ciEq p c else p == c) then
      (matchLit ci ps cs).map (fun r => (c :: r.1, r.2))
    else none

/-- `[^>]*>`: a greedy run of non-`>` characters followed by `>`; returns the
remainder after the `>`, or `none` when no `>` follows. -/
def skipAttrs : List Char → Option (List Char)
  | [] => none
  | '>' :: cs => some cs
  | _ :: cs => skipAttrs cs

/-- Lazy `(.*?)close`: the shortest content (not containing a newline unless
`dotall`) followed by the closing literal (case-insensitive); returns
(content, original closing characters, remainder). -/
def lazyUntil (dotall : Bool) (close : List Char) :
    Nat → List Char → Option (List Char × List Char × List Char)
  | 0, _ => none
  | fuel + 1, cs =>
    match matchLit true close cs with
    | some (orig, rest) => some ([], orig, rest)
    | none =>
      match cs with
      | [] => none
      | c :: cs' =>
        if !dotall && c == '\n' then none
        else
          (lazyUntil dotall close fuel cs').map (fun r => (c :: r.1, r.2.1, r.2.2))

/-- One global replacement pass for a pattern of the shape
`<name attrs? >(.*?)</name>` with replacement `pre ++ content ++ post`
(`attrs?` is `[^>]*` when `attrs` is set, as in the heading and paragraph
patterns; absent for the inline patterns such as `<strong>`). -/
def replTag (attrs dotall : Bool) (name : String) (pre post : String) :
    Nat → List Char → List Char
  | 0, cs => cs
  | fuel + 1, cs =>
    match cs with
    | [] => []
    | c :: cs' =>
      let opened : Option (List Char) :=
        match matchLit true ('<' :: name.data) cs with
        | none => none
        | some (_, afterName) =>
          if attrs then skipAttrs afterName
          else
            match afterName with
            | '>' :: r => some r
            | _ => none
      match opened with
      | some body =>
        match lazyUntil dotall ('<' :: '/' :: (name.data ++ ['>'])) (body.length + 1) body with
        | some (content, _, rest) =>
          pre.data ++ content ++ post.data ++ replTag attrs dotall name pre post fuel rest
        | none => c :: replTag attrs dotall name pre post fuel cs'
      | none => c :: replTag attrs dotall name pre post fuel cs'

/-- The inner string replacement of the `<ul>` rule:
`match.replace(/<li>(.*?)<\/li>/gi, '- $1\n')`. -/
def ulInner (fuel : Nat) (cs : List Char) : List Char :=
  replTag false false "li" "- " "\n" fuel cs

/-- The inner replacement of the `<ol>` rule:
`match.replace(/<li>(.*?)<\/li>/gi, () => `${index++}. $1\n`)`.
The replacement is produced by a callback returning a template literal, so
the two characters `$1` are emitted literally (the return value of a callback is
not subject to `$n` substitution) and the item content is dropped. -/
def olInner : Nat → Nat → List Char → List Char
  | _, 0, cs => cs
  | _, _ + 1, [] => []
  | index, fuel + 1, c :: cs' =>
    match matchLit true ['<', 'l', 'i', '>'] (c :: cs') with
    | some (_, body) =>
      match lazyUntil false ['<', '/', 'l', 'i', '>'] (body.length + 1) body with
      | some (_, _, rest) =>
        (toString index).data ++ '.' :: ' ' :: '$' :: '1' :: '\n' ::
          olInner (index + 1) fuel rest
      | none => c :: olInner index fuel cs'
    | none => c :: olInner index fuel cs'

/-- One global pass for `<name>(.*?)</name>` with the `s` flag whose whole
match (opening tag, content and closing tag, in their original characters)
is rewritten by `inner` — the shape of the `<ul>`/`<ol>` rules of the source. -/
def blockPass (name : String) (inner : List Char → List Char) :
    Nat → List Char → List Char
  | 0, cs => cs
  | fuel + 1, cs =>
    match cs with
    | [] => []
    | c :: cs' =>
      match matchLit true ('<' :: (name.data ++ ['>'])) cs with
      | some (origOpen, body) =>
        match lazyUntil true ('<' :: '/' :: (name.data ++ ['>'])) (body.length + 1) body with
        | some (content, origClose, rest) =>
          inner (origOpen ++ content ++ origClose) ++ blockPass name inner fuel rest
        | none => c :: blockPass name inner fuel cs'
      | none => c :: blockPass name inner fuel cs'

/-- `<br\s*\/?>(?!\n)` (mcpCore line 92): `<br`, optional whitespace, an
optional `/`, then `>`, not followed by a newline; replaced by a newline. -/
def brPass : Nat → List Char → List Char
  | 0, cs => cs
  | fuel + 1, cs =>
    match cs with
    | [] => []
    | c :: cs' =>
      let rest? : Option (List Char) :=
        match matchLit true ['<', 'b', 'r'] cs with
        | none => none
        | some (_, afterName) =>
          let afterWs := afterName.dropWhile jsWs
          let afterSlash := match afterWs with
            | '/' :: r => r
            | r => r
          match afterSlash with
          | '>' :: r => if r.head? = some '\n' then none else some r
          | _ => none
      match rest? with
      | some rest => '\n' :: brPass fuel rest
      | none => c :: brPass fuel cs'

/-- `<[^>]+>` deletion pass, shared by `htmlToPlainText` and the final pass
of `convertHtmlToMarkdown`: every span from a `<` to the next `>` with at
least one character in between is removed. -/
def stripTags : Nat → List Char → List Char
  | 0, cs => cs
  | fuel + 1, cs =>
    match cs with
    | [] => []
    | '<' :: rest =>
      match rest with
      | '>' :: _ => '<' :: stripTags fuel rest
      | _ =>
        match skipAttrs rest with
        | some rem => stripTags fuel rem
        | none => '<' :: rest
    | c :: cs' => c :: stripTags fuel cs'

/-- `htmlToPlainText` (mcpCore lines 69-74): strip tag spans, then decode
the two entities `&nbsp;` and `&amp;`.  Total; empty on `null`/empty input. -/
def htmlToPlainText (html : Option String) : String :=
  if strFalsy html then ""
  else
    let s := html.getD ""
    ((⟨stripTags (s.data.length + 1) s.data⟩ : String).replace "&nbsp;" " ").replace "&amp;" "&"

/-- `convertHtmlToMarkdown` (mcpCore lines 76-96): the ordered chain of
replacement passes.  Total; empty on empty input. -/
def convertHtmlToMarkdown (html : String) : String :=
  if strFalsy (some html) then ""
  else
    let t0 := html.data
    let f := fun (cs : List Char) => cs.length + 1
    let t1 := replTag true false "h1" "# " "\n\n" (f t0) t0
    let t2 := replTag true false "h2" "## " "\n\n" (f t1) t1
    let t3 := replTag true false "h3" "### " "\n\n" (f t2) t2
    let t4 := replTag false false "strong" "**" "**" (f t3) t3
    let t5 := replTag false false "b" "**" "**" (f t4) t4
    let t6 := replTag false false "em" "*" "*" (f t5) t5
    let t7 := replTag false false "i" "*" "*" (f t6) t6
    let t8 := blockPass "ul" (fun m => ulInner (m.length + 1) m) (f t7) t7
    let t9 := blockPass "ol" (fun m => olInner 1 (m.length + 1) m) (f t8) t8
    let t10 := brPass (f t9) t9
    let t11 := replTag true false "p" "" "\n\n" (f t10) t10
    ⟨stripTags (t11.length + 1) t11⟩

/-- The double-quote character (codepoint 34). -/
def dquoteCh : Char := Char.ofNat 34

/-- The single-quote character (codepoint 39). -/
def squoteCh : Char := Char.ofNat 39

/-- One step of the anchor regex
`<a [^>]*href=["']([^"']+)["'][^>]*>(.*?)<\/a>` after the literal `<a ` has
been consumed: the greedy `[^>]*` run with backtracking down to the last
position where `href=["']…` completes. -/
def hrefQuoted : List Char → Option (List Char × List Char)
  | cs =>
    match matchLit true ['h', 'r', 'e', 'f', '='] cs with
    | none => none
    | some (_, afterEq) =>
      match afterEq with
      | q :: url0 =>
        if q = dquoteCh ∨ q = squoteCh then
          let url := url0.takeWhile (fun c => !(c = dquoteCh ∨ c = squoteCh))
          let rest0 := url0.drop url.length
          match rest0 with
          | q' :: rest1 =>
            if (q' = dquoteCh ∨ q' = squoteCh) ∧ url ≠ [] then
              match skipAttrs rest1 with
              | some rest2 => some (url, rest2)
              | none => none
            else none
          | [] => none
        else none
      | [] => none

/-- The backtracking search for `[^>]*href=…`: greedily extend the run of
non-`>` characters, preferring the longest run whose tail completes. -/
def anchorAttrs : Nat → List Char → Option (List Char × List Char)
  | 0, _ => none
  | fuel + 1, cs =>
    match cs with
    | [] => hrefQuoted []
    | c :: cs' =>
      if c = '>' then hrefQuoted cs
      else
        match anchorAttrs fuel cs' with
        | some r => some r
        | none => hrefQuoted cs

/-- The anchor scan loop of `extractLinks`. -/
def anchorScan : Nat → List Char → List (String × String)
  | 0, _ => []
  | fuel + 1, cs =>
    match cs with
    | [] => []
    | _c :: cs' =>
      match matchLit true ['<', 'a', ' '] cs with
      | some (_, afterOpen) =>
        match anchorAttrs (afterOpen.length + 1) afterOpen with
        | some (url, afterGt) =>
          match lazyUntil false ['<', '/', 'a', '>'] (afterGt.length + 1) afterGt with
          | some (text, _, rest) =>
            (⟨text⟩, ⟨url⟩) :: anchorScan fuel rest
          | none => anchorScan fuel cs'
        | none => anchorScan fuel cs'
      | none => anchorScan fuel cs'

/-- `extractLinks` (mcpCore lines 98-108): scan for anchor matches in source
order.  Total; `[]` on `null`/empty input. -/
def extractLinks (html : Option String) : List (String × String) :=
  if strFalsy html then []
  else
    let s := html.getD ""
    anchorScan (s.data.length + 1) s.data

/-! ## Data model (src/src/mcpCore.ts lines 14-49, spec section 3) -/

structure CanvasCourse where
  id : Nat
  name : String
  termName : Option String
deriving Repr, DecidableEq

/-- The fields of a Canvas assignment that the discovery core reads
(the remaining fields of the API payload are never consulted by it). -/
structure CanvasAssignment where
  id : Nat
  name : String
  description : Option String
  due_at : Option String
  points_possible : Int
  submission_types : List String
deriving Repr, DecidableEq

/-- An assignment that survived filtering, tagged with its owning course
(`{ ...assignment, courseName, courseId }`). -/
structure AssignmentMatch where
  asg : CanvasAssignment
  courseName : String
  courseId : Nat
deriving Repr, DecidableEq

/-- The parameters of the search-assignments tool
(`{ query = '', dueBefore, dueAfter, includeCompleted, courseId }`). -/
structure SearchParams where
  query : String := ""
  dueBefore : Option String := none
  dueAfter : Option String := none
  includeCompleted : Bool := false
  courseId : Option String := none

/-- The remote Canvas API accessor (spec section 6): each operation either
returns its payload or fails with the message thrown by `canvasApiRequest`.
`fetchAssignments` receives the request actually built by the search handler:
the course id, the optional `bucket` hint, and the optional normalized
`due_after` / `due_before` instants appended to the URL (page size fixed at
50 by the source). -/
structure Accessor where
  fetchCourse : String → Except String CanvasCourse
  fetchCourses : String → Except String (List CanvasCourse)
  fetchAssignments : Nat → Option String → Option Int → Option Int →
    Except String (List CanvasAssignment)

/-- The message of the error thrown by `canvasApiRequest` on a non-2xx
response (mcpCore lines 62-65): the status code and the **raw response
body** are interpolated into it. -/
def remoteErrMsg (status : Nat) (body : String) : String :=
  "Canvas API error: " ++ toString status ++ " - " ++ body

/-- A tool result handed back to the transport: the text of the single
content block, and the `isError` marker. -/
structure ToolResult where
  text : String
  isError : Bool := false
deriving Repr, DecidableEq

/-! ## Assignment aggregator (src/src/mcpCore.ts lines 174-249) -/

/-- Course-scope resolution (lines 176-183): a truthy `courseId` scopes the
search to the single course fetched by that id; otherwise all courses in
state `all` (when `includeCompleted`) or `active` are listed.  A failure
here propagates (is fatal). -/
def resolveCourses (acc : Accessor) (p : SearchParams) :
    Except String (List CanvasCourse) :=
  if strTruthy p.courseId then
    (acc.fetchCourse (p.courseId.getD "")).map (fun c => [c])
  else
    acc.fetchCourses (if p.includeCompleted then "all" else "active")

/-- The `bucket` URL hint (lines 192-193): `future` when only `dueAfter` is
given, `past` when only `dueBefore` is. -/
def bucketOf (p : SearchParams) : Option String :=
  if strTruthy p.dueAfter && !strTruthy p.dueBefore then some "future"
  else if strTruthy p.dueBefore && !strTruthy p.dueAfter then some "past"
  else none

/-- The normalized `due_after` URL parameter (lines 194-200): start of the
day of a truthy, parsable `dueAfter`. -/
def afterParam (env : JsEnv) (p : SearchParams) : Option Int :=
  if strTruthy p.dueAfter then (parseDate env p.dueAfter).map dayStart else none

/-- The normalized `due_before` URL parameter (lines 201-207): end of the
day of a truthy, parsable `dueBefore`. -/
def beforeParam (env : JsEnv) (p : SearchParams) : Option Int :=
  if strTruthy p.dueBefore then (parseDate env p.dueBefore).map dayEnd else none

/-- The search terms (line 210): lower-case the query, split on whitespace
runs, drop empty pieces. -/
def searchTermsOf (q : String) : List String :=
  (splitWs (lowerStr q)).filter (fun t => t.length > 0)

/-- The per-assignment text predicate (lines 211-215): some term occurs in
the lower-cased title, or — when the description is truthy — in the
lower-cased plain-text rendering of the description. -/
def passText (terms : List String) (a : CanvasAssignment) : Bool :=
  let titleMatch := terms.any (fun t => strIncl t (lowerStr a.name))
  let descriptionMatch :=
    if strTruthy a.description then
      terms.any (fun t => strIncl t (lowerStr (htmlToPlainText a.description)))
    else false
  titleMatch || descriptionMatch

/-- The text-filter stage (line 211): with at least one search term, keep
the assignments passing `passText`; with no terms, keep everything. -/
def textStage (q : String) (assignments : List CanvasAssignment) :
    List CanvasAssignment :=
  let terms := searchTermsOf q
  if terms.length > 0 then assignments.filter (passText terms) else assignments

/-- The per-assignment date predicate (lines 216-219): when a `bucket` hint
was sent because exactly one bound is present, the filter short-circuits to
`true`; otherwise `isDateInRange` decides. -/
def passDate (env : JsEnv) (p : SearchParams) (a : CanvasAssignment) : Bool :=
  if (strTruthy p.dueAfter && !strTruthy p.dueBefore && (bucketOf p).isSome) ||
     (strTruthy p.dueBefore && !strTruthy p.dueAfter && (bucketOf p).isSome) then
    true
  else isDateInRange env a.due_at p.dueBefore p.dueAfter

/-- The body of the per-course loop (lines 188-225): fetch the assignments of
the course with the bucket/bound hints, apply the text filter then the date
filter, and tag survivors with the course.  A failure is caught and the
course contributes nothing. -/
def perCourse (env : JsEnv) (acc : Accessor) (p : SearchParams)
    (c : CanvasCourse) : List AssignmentMatch :=
  match acc.fetchAssignments c.id (bucketOf p) (afterParam env p) (beforeParam env p) with
  | .error _ => []
  | .ok assignments =>
    let matching := textStage p.query assignments
    let dateFiltered := matching.filter (passDate env p)
    dateFiltered.map (fun a => ⟨a, c.name, c.id⟩)

/-- The accumulated `allResults` of the course loop, in loop order. -/
def collectResults (env : JsEnv) (acc : Accessor) (p : SearchParams)
    (courses : List CanvasCourse) : List AssignmentMatch :=
  courses.flatMap (perCourse env acc p)

/-- The sort comparator (lines 227-235): date-less (falsy `due_at`) sorts
last, two date-less are equal, otherwise compare the `parseDate` instants
(equal when either fails to parse). -/
def cmpDue (env : JsEnv) (a b : AssignmentMatch) : Int :=
  if strFalsy a.asg.due_at && strFalsy b.asg.due_at then 0
  else if strFalsy a.asg.due_at then 1
  else if strFalsy b.asg.due_at then -1
  else
    match parseDate env a.asg.due_at, parseDate env b.asg.due_at with
    | some ta, some tb => ta - tb
    | _, _ => 0

/-- Stable insertion into a list ordered by a JS comparator: the new element
goes in front of the first position it need not follow (`cmp x y ≤ 0`).
Inserting earlier-arriving elements last, this realizes the stable sort
ECMA-262 prescribes for `Array.prototype.sort`. -/
def insertCmp (cmp : AssignmentMatch → AssignmentMatch → Int)
    (x : AssignmentMatch) : List AssignmentMatch → List AssignmentMatch
  | [] => [x]
  | y :: ys => if cmp x y ≤ 0 then x :: y :: ys else y :: insertCmp cmp x ys

/-- Stable sort by a JS comparator (model of `allResults.sort(...)`). -/
def sortCmp (cmp : AssignmentMatch → AssignmentMatch → Int) :
    List AssignmentMatch → List AssignmentMatch
  | [] => []
  | x :: xs => insertCmp cmp x (sortCmp cmp xs)

/-- The sorted merged sequence produced by a search once the course scope
has resolved. -/
def searchResults (env : JsEnv) (acc : Accessor) (p : SearchParams) :
    Except String (List AssignmentMatch) :=
  (resolveCourses acc p).map (fun courses =>
    sortCmp (cmpDue env) (collectResults env acc p courses))

/-- The descriptive empty-result message (lines 236-243). -/
def noResultsText (p : SearchParams) : String :=
  let dateRange :=
    (if strTruthy p.dueAfter then ["after " ++ p.dueAfter.getD ""] else []) ++
    (if strTruthy p.dueBefore then ["before " ++ p.dueBefore.getD ""] else [])
  let dateStr :=
    if dateRange.length > 0 then " due " ++ String.intercalate " and " dateRange else ""
  let queryStr :=
    if strTruthy (some p.query) then " matching \x22" ++ p.query ++ "\x22" else ""
  "No assignments found" ++ queryStr ++ dateStr ++ "."

/-- One line block of the result list (lines 244-247). -/
def resultEntry (env : JsEnv) (m : AssignmentMatch) : String :=
  let dueDate :=
    if strTruthy m.asg.due_at then env.displayDate (m.asg.due_at.getD "")
    else "No due date"
  "- Course: " ++ m.courseName ++ " (ID: " ++ toString m.courseId ++ ")\n" ++
  "  Assignment: " ++ m.asg.name ++ " (ID: " ++ toString m.asg.id ++ ")\n" ++
  "  Due: " ++ dueDate

/-- The successful result text (line 248). -/
def resultsText (env : JsEnv) (p : SearchParams) (rs : List AssignmentMatch) : String :=
  "Found " ++ toString rs.length ++ " assignments matching \x22" ++ p.query ++
  "\x22:\n\n" ++ String.intercalate "\n\n" (rs.map (resultEntry env))

/-- `searchAssignmentsHandler` (mcpCore lines 174-249).  A failure while
resolving the course scope propagates as `.error`; per-course assignment
failures never do. -/
def searchAssignmentsHandler (env : JsEnv) (acc : Accessor) (p : SearchParams) :
    Except String ToolResult :=
  match resolveCourses acc p with
  | .error e => .error e
  | .ok courses =>
    if courses.length = 0 then .ok ⟨"No courses found.", false⟩
    else
      let allResults := sortCmp (cmpDue env) (collectResults env acc p courses)
      if allResults.length = 0 then .ok ⟨noResultsText p, false⟩
      else .ok ⟨resultsText env p allResults, false⟩

/-! ## The search tool of the stdio entry point (src/unnamed/part_000 lines 159-276)

The stdio server carries its own copy of the search logic with a few
differences from mcpCore: the JSDOM renderer for descriptions, raw
`bucket=due_after/due_before` URL parameters, no client-side date filter, no
dropping of empty search terms, the generic `new Date(due_at)` in the sort
comparator, and — decisive for the error-sanitization claim — a catch clause
that interpolates the message of the thrown error into the returned text. -/

/-- The stdio accessor: `fetchAssignments` receives the raw `dueAfter` and
`dueBefore` strings that the handler splices into the assignments URL. -/
structure StdioAccessor where
  fetchCourse : String → Except String CanvasCourse
  fetchCourses : String → Except String (List CanvasCourse)
  fetchAssignments : Nat → Option String → Option String →
    Except String (List CanvasAssignment)

/-- The JSDOM-based `htmlToPlainText` of the stdio server (part_000 lines
77-82): delegates to the external renderer. -/
def stdioPlainText (env : JsEnv) (html : Option String) : String :=
  if strFalsy html then "" else env.jsdomText (html.getD "")

/-- The stdio text predicate (part_000 lines 203-219): the terms are the
whitespace split of the lower-cased query **without** dropping empty
pieces. -/
def stdioPassText (env : JsEnv) (terms : List String) (a : CanvasAssignment) : Bool :=
  let titleMatch := terms.any (fun t => strIncl t (lowerStr a.name))
  let descriptionMatch :=
    if strTruthy a.description then
      terms.any (fun t => strIncl t (lowerStr (stdioPlainText env a.description)))
    else false
  titleMatch || descriptionMatch

/-- The stdio sort comparator (part_000 lines 236-241): like `cmpDue` but
with the generic `new Date(due_at).getTime()` (a `NaN` difference is treated
as `0` by `Array.prototype.sort`). -/
def stdioCmpDue (env : JsEnv) (a b : AssignmentMatch) : Int :=
  if strFalsy a.asg.due_at && strFalsy b.asg.due_at then 0
  else if strFalsy a.asg.due_at then 1
  else if strFalsy b.asg.due_at then -1
  else
    match env.dateCtor (a.asg.due_at.getD ""), env.dateCtor (b.asg.due_at.getD "") with
    | some ta, some tb => ta - tb
    | _, _ => 0

/-- The body of the stdio search tool (part_000 lines 170-265), up to the
surrounding try/catch. -/
def stdioSearchBody (env : JsEnv) (acc : StdioAccessor) (p : SearchParams) :
    Except String ToolResult :=
  match
    (if strTruthy p.courseId then
      (acc.fetchCourse (p.courseId.getD "")).map (fun c => [c])
    else
      acc.fetchCourses (if p.includeCompleted then "all" else "active")) with
  | .error e => .error e
  | .ok courses =>
    if courses.length = 0 then .ok ⟨"No courses found.", false⟩
    else
      let perC := fun (c : CanvasCourse) =>
        match acc.fetchAssignments c.id p.dueAfter p.dueBefore with
        | .error _ => []
        | .ok assignments =>
          let terms := splitWs (lowerStr p.query)
          let matching := assignments.filter (stdioPassText env terms)
          matching.map (fun a => (⟨a, c.name, c.id⟩ : AssignmentMatch))
      let allResults := sortCmp (stdioCmpDue env) (courses.flatMap perC)
      if allResults.length = 0 then
        .ok ⟨"No assignments found matching \x22" ++ p.query ++ "\x22.", false⟩
      else
        .ok ⟨"Found " ++ toString allResults.length ++ " assignments matching \x22" ++
          p.query ++ "\x22:\n\n" ++
          String.intercalate "\n\n" (allResults.map (resultEntry env)), false⟩

/-- The stdio search tool (part_000 lines 266-274): the catch clause turns a
thrown error into a result whose text interpolates the message of the error. -/
def stdioSearchTool (env : JsEnv) (acc : StdioAccessor) (p : SearchParams) :
    ToolResult :=
  match stdioSearchBody env acc p with
  | .ok r => r
  | .error msg => ⟨"Search failed: " ++ msg, true⟩

/-! ## Concrete test fixtures

Closed values used by the witness and counterexample theorems below.
`envNone` is one admissible runtime behaviour: the generic `new Date(string)`
constructor recognises nothing (every non-bare string is an Invalid Date),
JSDOM renders to the empty string, locale display is empty. -/

def envNone : JsEnv := ⟨fun _ => none, fun _ => "", fun _ => ""⟩

def courseA : CanvasCourse := ⟨1, "Alpha", none⟩

def courseB : CanvasCourse := ⟨2, "Beta", none⟩

def asgEssay : CanvasAssignment := ⟨10, "Essay", none, none, 100, ["online_text_entry"]⟩

def asg2020 : CanvasAssignment := ⟨11, "Old quiz", none, some "2020-01-01", 50, []⟩

/-- Accessor whose assignment fetch fails for course 1 and succeeds for
every other course. -/
def accPartialFail : Accessor :=
  ⟨fun _ => .error "unused",
   fun _ => .ok [courseA, courseB],
   fun cid _ _ _ =>
     if cid = 1 then .error (remoteErrMsg 500 "boom") else .ok [asgEssay]⟩

/-- Accessor returning a single out-of-range assignment for every course. -/
def accOldQuiz : Accessor :=
  ⟨fun _ => .error "unused", fun _ => .ok [courseB], fun _ _ _ _ => .ok [asg2020]⟩

/-- Search restricted to assignments due after 2030. -/
def pAfter2030 : SearchParams := { dueAfter := some "2030-01-01" }

/-- Accessor for the course-id scope counterexample: fetching by id yields
course 99, the `active` listing yields `[courseA]` and the `all` listing
`[courseA, courseB]`. -/
def accScope : Accessor :=
  ⟨fun _ => .ok ⟨99, "ById", none⟩,
   fun st => if st = "active" then .ok [courseA] else .ok [courseA, courseB],
   fun _ _ _ _ => .ok []⟩

/-- Three dated assignments: 2024-01-02, an unparsable date, 2024-01-01. -/
def asgJan2 : CanvasAssignment := ⟨21, "Jan second", none, some "2024-01-02", 0, []⟩

def asgGarbled : CanvasAssignment := ⟨22, "Garbled", none, some "whenever", 0, []⟩

def asgJan1 : CanvasAssignment := ⟨23, "Jan first", none, some "2024-01-01", 0, []⟩

def accThreeDates : Accessor :=
  ⟨fun _ => .error "unused", fun _ => .ok [courseA],
   fun _ _ _ _ => .ok [asgJan2, asgGarbled, asgJan1]⟩

def mJan2 : AssignmentMatch := ⟨asgJan2, "Alpha", 1⟩

def mGarbled : AssignmentMatch := ⟨asgGarbled, "Alpha", 1⟩

def mJan1 : AssignmentMatch := ⟨asgJan1, "Alpha", 1⟩

/-- Well-dated fixture for the witness of the amended sort theorem. -/
def accTwoDates : Accessor :=
  ⟨fun _ => .error "unused", fun _ => .ok [courseA],
   fun _ _ _ _ => .ok [asgEssay, asgJan2, asgJan1]⟩

/-- Stdio accessor whose course listing fails with a 403 carrying a secret
response body. -/
def accLeak : StdioAccessor :=
  ⟨fun _ => .error "unused",
   fun _ => .error (remoteErrMsg 403 "SECRET_BODY"),
   fun _ _ _ => .ok []⟩

/-- Same failure with a different response body. -/
def accLeak2 : StdioAccessor :=
  ⟨fun _ => .error "unused",
   fun _ => .error (remoteErrMsg 403 "OTHER_BODY"),
   fun _ _ _ => .ok []⟩

/-- Either date-less or successfully parsed: the situation of every element
of a result list satisfying the hypothesis of the amended sort claim. -/
def wellDated (env : JsEnv) (m : AssignmentMatch) : Prop :=
  strFalsy m.asg.due_at = true ∨ ∃ t, parseDate env m.asg.due_at = some t

/-- The decimal digit character for `k % 10`. -/
def dch (k : Nat) : Char := Char.ofNat (48 + k % 10)

/-- The canonical `YYYY-MM-DD` rendering of a (valid) calendar date, used to
quantify over all bare date strings. -/
def bareStr (y m d : Nat) : String :=
  ⟨[dch (y / 1000), dch (y / 100), dch (y / 10), dch y, '-',
    dch (m / 10), dch m, '-', dch (d / 10), dch d]⟩

/-! ## General lemmas -/

theorem parseDate_of_falsy (env : JsEnv) (d : Option String)
    (h : strFalsy d = true) : parseDate env d = none := by
  unfold parseDate
  simp [h]

theorem strIncl_empty_right (t : String) (h : t ≠ "") : strIncl t "" = false := by
  have hd : t.data ≠ [] := by
    intro hnil
    exact h (by cases t with | mk l => simp_all)
  unfold strIncl charsHave startsChars
  cases ht : t.data with
  | nil => exact absurd ht hd
  | cons c cs => rfl

theorem searchTerms_ne_empty (q : String) {t : String}
    (ht : t ∈ searchTermsOf q) : t.length > 0 := by
  unfold searchTermsOf at ht
  have := List.mem_filter.mp ht
  exact of_decide_eq_true this.2

/-! ## Claim theorems -/

/-- C10: every markup-normalizer entry point is total on an absent
description: a `null` or empty markup input yields `""` from
`htmlToPlainText`, `""` from `convertHtmlToMarkdown` and `[]` from
`extractLinks` (totality — "never raises" — holds by construction, the
three embedded functions being total Lean functions). -/
theorem markupTotalOnAbsent :
    htmlToPlainText none = "" ∧ htmlToPlainText (some "") = "" ∧
    convertHtmlToMarkdown "" = "" ∧
    extractLinks none = [] ∧ extractLinks (some "") = [] :=
  ⟨rfl, rfl, rfl, rfl, rfl⟩

/-- C6 (claim violated by the code): on `<ol><li>A</li><li>B</li></ol>` the
converter renders each item as `<n>. $1`, dropping the item content — the
replacement callback of the `<ol>` rule returns a template literal in which `$1`
is not a capture reference but two literal characters — rather than the
`<n>. <content>` the claim describes. -/
theorem orderedListDropsContent :
    convertHtmlToMarkdown "<ol><li>A</li><li>B</li></ol>" =
      "1. $1\n2. $1\n" := by
  rfl

/-- C9 (claim violated by the code): the catch clause of the stdio search tool
returns `Search failed: <thrown message>`, and the message thrown by
`canvasApiRequest` interpolates the raw remote response body; so the body
(`SECRET_BODY`) reaches the caller verbatim, and varying only the body
changes the returned message. -/
theorem searchFailureLeaksBody :
    (stdioSearchTool envNone accLeak {}).text =
      "Search failed: Canvas API error: 403 - SECRET_BODY" ∧
    strIncl "SECRET_BODY" (stdioSearchTool envNone accLeak {}).text = true ∧
    (stdioSearchTool envNone accLeak2 {}).text ≠
      (stdioSearchTool envNone accLeak {}).text := by
  refine ⟨rfl, by decide, by decide⟩

/-- C8 counterexample: with `courseId` present but equal to the empty string
(falsy in JS), the handler does **not** scope to the course fetched by that
id — it lists courses by enrollment state, and `includeCompleted` changes
which courses are searched. -/
theorem courseIdScopeCounterexample :
    resolveCourses accScope { courseId := some "" } = .ok [courseA] ∧
    (accScope.fetchCourse "").map (fun c => [c]) =
      .ok [(⟨99, "ById", none⟩ : CanvasCourse)] ∧
    courseA ≠ (⟨99, "ById", none⟩ : CanvasCourse) ∧
    resolveCourses accScope { courseId := some "", includeCompleted := true } =
      .ok [courseA, courseB] ∧
    ([courseA] : List CanvasCourse) ≠ [courseA, courseB] := by
  refine ⟨rfl, rfl, by decide, rfl, by decide⟩

/-- C8 amended: whenever `courseId` is present **and truthy** (non-empty),
the resolved scope is exactly the single course fetched by that id,
`includeCompleted` has no effect on the scope, and a failure fetching that
course propagates out of the whole handler as an error. -/
theorem courseIdScope (acc : Accessor) (p : SearchParams) (cid : String)
    (hcid : p.courseId = some cid) (hne : cid ≠ "") :
    resolveCourses acc p = (acc.fetchCourse cid).map (fun c => [c]) ∧
    (∀ b, resolveCourses acc { p with includeCompleted := b } =
      resolveCourses acc p) ∧
    (∀ env e, acc.fetchCourse cid = .error e →
      searchAssignmentsHandler env acc p = .error e) := by
  have hdata : cid.data ≠ [] := by
    intro hnil
    exact hne (by cases cid with | mk l => simp_all)
  have htr : strTruthy p.courseId = true := by
    rw [hcid]
    simp [strTruthy, strFalsy, List.isEmpty_iff, hdata]
  have hres : resolveCourses acc p = (acc.fetchCourse cid).map (fun c => [c]) := by
    unfold resolveCourses
    rw [htr, hcid]
    rfl
  refine ⟨hres, ?_, ?_⟩
  · intro b
    unfold resolveCourses
    rw [show ({ p with includeCompleted := b } : SearchParams).courseId = p.courseId from rfl,
      htr]
    simp
  · intro env e herr
    unfold searchAssignmentsHandler
    rw [hres, herr]
    rfl

/-- C8 witness: for a concrete truthy course id the amended scope equations
hold and the fetch failure is fatal. -/
theorem courseIdScope_witness :
    resolveCourses accPartialFail { courseId := some "7" } =
      (accPartialFail.fetchCourse "7").map (fun c => [c]) ∧
    (∀ b, resolveCourses accPartialFail { courseId := some "7", includeCompleted := b } =
      resolveCourses accPartialFail { courseId := some "7" }) ∧
    (∀ env e, accPartialFail.fetchCourse "7" = .error e →
      searchAssignmentsHandler env accPartialFail { courseId := some "7" } = .error e) :=
  courseIdScope accPartialFail { courseId := some "7" } "7" rfl (by decide)

/-- C1: when the course scope has resolved to a list containing a course
whose assignment fetch fails, the search still completes successfully (the
handler returns a result, never an error), and the merged results are
exactly the survivors of the surrounding courses — the failing course is
skipped and contributes nothing. -/
theorem searchSkipsFailingCourse (env : JsEnv) (acc : Accessor)
    (p : SearchParams) (cs₁ cs₂ : List CanvasCourse) (c : CanvasCourse)
    (e : String)
    (hres : resolveCourses acc p = .ok (cs₁ ++ c :: cs₂))
    (herr : acc.fetchAssignments c.id (bucketOf p) (afterParam env p)
      (beforeParam env p) = .error e) :
    (∃ out, searchAssignmentsHandler env acc p = .ok out) ∧
    collectResults env acc p (cs₁ ++ c :: cs₂) =
      collectResults env acc p cs₁ ++ collectResults env acc p cs₂ := by
  constructor
  · unfold searchAssignmentsHandler
    rw [hres]
    dsimp only
    split
    · exact ⟨_, rfl⟩
    · split
      · exact ⟨_, rfl⟩
      · exact ⟨_, rfl⟩
  · have hnil : perCourse env acc p c = [] := by
      unfold perCourse
      rw [herr]
    unfold collectResults
    rw [List.flatMap_append, List.flatMap_cons, hnil, List.nil_append]

/-- C1 witness: two concrete courses, the first of which fails; the search
returns a result and the collected matches are those of the second course. -/
theorem searchSkipsFailingCourse_witness :
    (∃ out, searchAssignmentsHandler envNone accPartialFail {} = .ok out) ∧
    collectResults envNone accPartialFail {} ([] ++ courseA :: [courseB]) =
      collectResults envNone accPartialFail {} [] ++
        collectResults envNone accPartialFail {} [courseB] :=
  searchSkipsFailingCourse envNone accPartialFail {} [] [courseB] courseA
    (remoteErrMsg 500 "boom") rfl rfl

theorem strTruthy_none_false : strTruthy (none : Option String) = false := rfl

theorem strFalsy_some_iff (s : String) : strFalsy (some s) = true ↔ s = "" := by
  unfold strFalsy
  rw [List.isEmpty_iff]
  constructor
  · intro h
    cases s with | mk l => simp_all
  · intro h
    rw [h]

theorem passText_iff (q : String) (a : CanvasAssignment) :
    passText (searchTermsOf q) a = true ↔
      ∃ t ∈ searchTermsOf q,
        (strIncl t (lowerStr a.name) = true ∨
         (a.description ≠ none ∧
          strIncl t (lowerStr (htmlToPlainText a.description)) = true)) := by
  unfold passText
  by_cases htd : strTruthy a.description = true
  · have hne : a.description ≠ none := by
      intro hn
      rw [hn] at htd
      exact absurd htd (by decide)
    simp only [htd, if_true, Bool.or_eq_true, List.any_eq_true]
    constructor
    · rintro (⟨t, ht, hi⟩ | ⟨t, ht, hi⟩)
      · exact ⟨t, ht, Or.inl hi⟩
      · exact ⟨t, ht, Or.inr ⟨hne, hi⟩⟩
    · rintro ⟨t, ht, hi | ⟨_, hi⟩⟩
      · exact Or.inl ⟨t, ht, hi⟩
      · exact Or.inr ⟨t, ht, hi⟩
  · have htd' : strTruthy a.description = false := by
      simpa using htd
    simp only [htd', Bool.false_eq_true, if_false, Bool.or_false, List.any_eq_true]
    cases hd : a.description with
    | none => simp [hd]
    | some s =>
      have hs : s = "" := by
        have : strFalsy (some s) = true := by
          have := htd'
          rw [hd] at this
          simpa [strTruthy] using this
        exact (strFalsy_some_iff s).mp this
      subst hs
      constructor
      · rintro ⟨t, ht, hi⟩
        exact ⟨t, ht, Or.inl hi⟩
      · rintro ⟨t, ht, hi | ⟨_, hi⟩⟩
        · exact ⟨t, ht, hi⟩
        · exfalso
          have hlen := searchTerms_ne_empty q ht
          have htne : t ≠ "" := by
            intro h0
            rw [h0] at hlen
            simp at hlen
          rw [show htmlToPlainText (some "") = "" from rfl] at hi
          rw [show lowerStr "" = "" from rfl] at hi
          rw [strIncl_empty_right t htne] at hi
          exact absurd hi (by decide)

/-- C3: after splitting the query into lowercase non-empty terms, zero terms
means the text stage passes every assignment unchanged; otherwise an
assignment passes if and only if some term is a substring of its lowercased
title or — when its description is non-null — of the lowercased plain-text
rendering of that description. -/
theorem textFilterMatchesClaim (q : String) (asgs : List CanvasAssignment) :
    (searchTermsOf q = [] → textStage q asgs = asgs) ∧
    (searchTermsOf q ≠ [] → ∀ a, a ∈ textStage q asgs ↔
      (a ∈ asgs ∧ ∃ t ∈ searchTermsOf q,
        (strIncl t (lowerStr a.name) = true ∨
         (a.description ≠ none ∧
          strIncl t (lowerStr (htmlToPlainText a.description)) = true)))) := by
  constructor
  · intro h
    unfold textStage
    rw [h]
    simp
  · intro h a
    unfold textStage
    have hlen : 0 < (searchTermsOf q).length := List.length_pos.mpr h
    rw [if_pos hlen, List.mem_filter]
    exact and_congr_right (fun _ => passText_iff q a)

/-- C3 witness: with the empty query the stage is the identity, and with the
term `essay` membership is characterized as claimed. -/
theorem textFilterMatchesClaim_witness :
    textStage "" [asgEssay, asg2020] = [asgEssay, asg2020] ∧
    (asgEssay ∈ textStage "Essay" [asgEssay, asg2020] ↔
      (asgEssay ∈ [asgEssay, asg2020] ∧ ∃ t ∈ searchTermsOf "Essay",
        (strIncl t (lowerStr asgEssay.name) = true ∨
         (asgEssay.description ≠ none ∧
          strIncl t (lowerStr (htmlToPlainText asgEssay.description)) = true)))) :=
  ⟨(textFilterMatchesClaim "" [asgEssay, asg2020]).1 rfl,
   (textFilterMatchesClaim "Essay" [asgEssay, asg2020]).2 (by decide) asgEssay⟩

/-- C5: when exactly one of `dueBefore`/`dueAfter` is supplied, a bucket
hint was sent and the per-assignment date filter short-circuits: the results of the course are the text-stage survivors unchanged — `isDateInRange` is never
consulted, so assignments outside the nominal one-sided range survive. -/
theorem bucketShortCircuit (env : JsEnv) (acc : Accessor) (p : SearchParams)
    (c : CanvasCourse) (asgs : List CanvasAssignment)
    (hone : ((strTruthy p.dueAfter && !strTruthy p.dueBefore) ||
      (strTruthy p.dueBefore && !strTruthy p.dueAfter)) = true)
    (hfetch : acc.fetchAssignments c.id (bucketOf p) (afterParam env p)
      (beforeParam env p) = .ok asgs) :
    perCourse env acc p c =
      (textStage p.query asgs).map (fun a => ⟨a, c.name, c.id⟩) := by
  unfold perCourse
  rw [hfetch]
  dsimp only
  have hpass : ∀ a ∈ textStage p.query asgs, passDate env p a = true := by
    intro a _
    unfold passDate bucketOf
    rcases Bool.or_eq_true _ _ |>.mp hone with h | h
    · rcases Bool.and_eq_true _ _ |>.mp h with ⟨ha, hb⟩
      simp [ha, hb]
    · rcases Bool.and_eq_true _ _ |>.mp h with ⟨hb, ha⟩
      simp [ha, hb]
  rw [List.filter_eq_self.mpr hpass]

/-- C5 witness: with only `dueAfter = 2030-01-01`, an assignment due in 2020
— for which `isDateInRange` is `false` — still survives filtering. -/
theorem bucketShortCircuit_witness :
    perCourse envNone accOldQuiz pAfter2030 courseB =
      (textStage pAfter2030.query [asg2020]).map (fun a => ⟨a, courseB.name, courseB.id⟩) ∧
    isDateInRange envNone asg2020.due_at pAfter2030.dueBefore pAfter2030.dueAfter = false ∧
    perCourse envNone accOldQuiz pAfter2030 courseB = [⟨asg2020, "Beta", 2⟩] :=
  ⟨bucketShortCircuit envNone accOldQuiz pAfter2030 courseB [asg2020] (by decide) rfl,
   by decide, by decide⟩

/-- C4: `isDateInRange` (`isWithinRange` in the spec) is `true` whenever the
due date is absent or unparsable, and otherwise is `false` exactly when a
truthy, parsable `before` bound — normalized to 23:59:59.999 of its day —
is strictly earlier than the due instant, or a truthy, parsable `after`
bound — normalized to 00:00:00.000 of its day — is strictly later than it;
an absent or unparsable bound imposes no constraint. -/
theorem isDateInRangeFalseIff (env : JsEnv) (d b a : Option String) :
    isDateInRange env d b a = false ↔
      ∃ t, parseDate env d = some t ∧
        ((∃ tb, strTruthy b = true ∧ parseDate env b = some tb ∧ dayEnd tb < t) ∨
         (∃ ta, strTruthy a = true ∧ parseDate env a = some ta ∧ t < dayStart ta)) := by
  unfold isDateInRange
  by_cases hf : strFalsy d = true
  · rw [if_pos hf, parseDate_of_falsy env d hf]
    simp
  · rw [if_neg hf]
    cases hpd : parseDate env d with
    | none => simp
    | some due =>
      dsimp only
      have hbh : (strTruthy b &&
          (match parseDate env b with
           | some bb => decide (due > dayEnd bb)
           | none => false)) = true ↔
          (∃ tb, strTruthy b = true ∧ parseDate env b = some tb ∧ dayEnd tb < due) := by
        cases hpb : parseDate env b with
        | none => simp
        | some bb => simp [Bool.and_eq_true, gt_iff_lt]
      have hah : (strTruthy a &&
          (match parseDate env a with
           | some aa => decide (due < dayStart aa)
           | none => false)) = true ↔
          (∃ ta, strTruthy a = true ∧ parseDate env a = some ta ∧ due < dayStart ta) := by
        cases hpa : parseDate env a with
        | none => simp
        | some aa => simp [Bool.and_eq_true]
      rw [show (∃ t, (some due = some t) ∧
          ((∃ tb, strTruthy b = true ∧ parseDate env b = some tb ∧ dayEnd tb < t) ∨
           (∃ ta, strTruthy a = true ∧ parseDate env a = some ta ∧ t < dayStart ta))) ↔
          ((∃ tb, strTruthy b = true ∧ parseDate env b = some tb ∧ dayEnd tb < due) ∨
           (∃ ta, strTruthy a = true ∧ parseDate env a = some ta ∧ due < dayStart ta))
        from by simp]
      rw [← hbh, ← hah]
      rcases Bool.eq_false_or_eq_true (strTruthy b &&
          (match parseDate env b with
           | some bb => decide (due > dayEnd bb)
           | none => false)) with hB | hB <;>
        rcases Bool.eq_false_or_eq_true (strTruthy a &&
            (match parseDate env a with
             | some aa => decide (due < dayStart aa)
             | none => false)) with hA | hA <;>
          simp [hB, hA]

/-! ## Sort lemmas for the merged result sequence -/

theorem mem_insertCmp (cmp : AssignmentMatch → AssignmentMatch → Int)
    (x : AssignmentMatch) (l : List AssignmentMatch) (a : AssignmentMatch) :
    a ∈ insertCmp cmp x l ↔ a = x ∨ a ∈ l := by
  induction l with
  | nil => simp [insertCmp]
  | cons y ys ih =>
    unfold insertCmp
    by_cases h : cmp x y ≤ 0
    · rw [if_pos h]
      simp
    · rw [if_neg h]
      simp only [List.mem_cons, ih]
      tauto

theorem insertCmp_perm (cmp : AssignmentMatch → AssignmentMatch → Int)
    (x : AssignmentMatch) (l : List AssignmentMatch) :
    (insertCmp cmp x l).Perm (x :: l) := by
  induction l with
  | nil => exact List.Perm.refl _
  | cons y ys ih =>
    unfold insertCmp
    by_cases h : cmp x y ≤ 0
    · rw [if_pos h]
    · rw [if_neg h]
      exact (ih.cons y).trans (List.Perm.swap x y ys)

theorem sortCmp_perm (cmp : AssignmentMatch → AssignmentMatch → Int)
    (l : List AssignmentMatch) : (sortCmp cmp l).Perm l := by
  induction l with
  | nil => exact List.Perm.refl _
  | cons x xs ih => exact (insertCmp_perm cmp x (sortCmp cmp xs)).trans (ih.cons x)

theorem filter_insertCmp_of_neg (cmp : AssignmentMatch → AssignmentMatch → Int)
    (p : AssignmentMatch → Bool) (x : AssignmentMatch)
    (l : List AssignmentMatch) (hx : p x = false) :
    (insertCmp cmp x l).filter p = l.filter p := by
  induction l with
  | nil => simp [insertCmp, hx]
  | cons y ys ih =>
    unfold insertCmp
    by_cases h : cmp x y ≤ 0
    · rw [if_pos h]
      simp [List.filter_cons, hx]
    · rw [if_neg h]
      simp [List.filter_cons, ih]

theorem filter_insertCmp_of_pos (cmp : AssignmentMatch → AssignmentMatch → Int)
    (p : AssignmentMatch → Bool) (x : AssignmentMatch)
    (l : List AssignmentMatch) (hx : p x = true)
    (hcl : ∀ y, p y = true ↔ cmp x y ≤ 0) :
    (insertCmp cmp x l).filter p = x :: l.filter p := by
  induction l with
  | nil => simp [insertCmp, hx]
  | cons y ys ih =>
    unfold insertCmp
    by_cases h : cmp x y ≤ 0
    · rw [if_pos h]
      simp [List.filter_cons, hx]
    · rw [if_neg h]
      have hy : p y = false := by
        rcases Bool.eq_false_or_eq_true (p y) with h' | h'
        · exact absurd ((hcl y).mp h') h
        · exact h' 
      simp [List.filter_cons, hy, ih]

theorem filter_sortCmp (cmp : AssignmentMatch → AssignmentMatch → Int)
    (p : AssignmentMatch → Bool) (l : List AssignmentMatch)
    (hcl : ∀ x, p x = true → ∀ y, (p y = true ↔ cmp x y ≤ 0)) :
    (sortCmp cmp l).filter p = l.filter p := by
  induction l with
  | nil => rfl
  | cons x xs ih =>
    show (insertCmp cmp x (sortCmp cmp xs)).filter p = (x :: xs).filter p
    rcases Bool.eq_false_or_eq_true (p x) with hx | hx
    · rw [filter_insertCmp_of_pos cmp p x _ hx (hcl x hx), ih, List.filter_cons, hx]
      simp
    · rw [filter_insertCmp_of_neg cmp p x _ hx, ih, List.filter_cons, hx]
      simp

theorem pairwise_insertCmp (cmp : AssignmentMatch → AssignmentMatch → Int)
    (hskew : ∀ a b, 0 < cmp a b → cmp b a ≤ 0) (x : AssignmentMatch) :
    ∀ l : List AssignmentMatch,
      (∀ a ∈ x :: l, ∀ b ∈ x :: l, ∀ c ∈ x :: l,
        cmp a b ≤ 0 → cmp b c ≤ 0 → cmp a c ≤ 0) →
      l.Pairwise (fun a b => cmp a b ≤ 0) →
      (insertCmp cmp x l).Pairwise (fun a b => cmp a b ≤ 0) := by
  intro l
  induction l with
  | nil =>
    intro _ _
    simp [insertCmp]
  | cons y ys ih =>
    intro htr hl
    unfold insertCmp
    by_cases h : cmp x y ≤ 0
    · rw [if_pos h]
      refine List.Pairwise.cons ?_ hl
      intro b hb
      rcases List.mem_cons.mp hb with rfl | hb
      · exact h
      · exact htr x (by simp) y (by simp) b (by simp [hb]) h
          (List.rel_of_pairwise_cons hl hb)
    · rw [if_neg h]
      have hyx : cmp y x ≤ 0 := hskew x y (by omega)
      have hsub : ∀ a, a ∈ x :: ys → a ∈ x :: y :: ys := by
        intro a ha
        rcases List.mem_cons.mp ha with rfl | ha
        · exact List.mem_cons_self _ _
        · exact List.mem_cons_of_mem _ (List.mem_cons_of_mem _ ha)
      refine List.Pairwise.cons ?_
        (ih (fun a ha b hb c hc => htr a (hsub a ha) b (hsub b hb) c (hsub c hc))
          hl.of_cons)
      intro b hb
      rcases (mem_insertCmp cmp x ys b).mp hb with rfl | hb
      · exact hyx
      · exact List.rel_of_pairwise_cons hl hb

theorem pairwise_sortCmp (cmp : AssignmentMatch → AssignmentMatch → Int)
    (hskew : ∀ a b, 0 < cmp a b → cmp b a ≤ 0) :
    ∀ l : List AssignmentMatch,
      (∀ a ∈ l, ∀ b ∈ l, ∀ c ∈ l, cmp a b ≤ 0 → cmp b c ≤ 0 → cmp a c ≤ 0) →
      (sortCmp cmp l).Pairwise (fun a b => cmp a b ≤ 0) := by
  intro l
  induction l with
  | nil =>
    intro _
    simp [sortCmp]
  | cons x xs ih =>
    intro htr
    show (insertCmp cmp x (sortCmp cmp xs)).Pairwise _
    have hmem : ∀ a, a ∈ x :: sortCmp cmp xs → a ∈ x :: xs := by
      intro a ha
      rcases List.mem_cons.mp ha with rfl | ha
      · exact List.mem_cons_self _ _
      · exact List.mem_cons_of_mem _ ((sortCmp_perm cmp xs).mem_iff.mp ha)
    refine pairwise_insertCmp cmp hskew x (sortCmp cmp xs)
      (fun a ha b hb c hc => htr a (hmem a ha) b (hmem b hb) c (hmem c hc)) ?_
    exact ih (fun a ha b hb c hc =>
      htr a (List.mem_cons_of_mem _ ha) b (List.mem_cons_of_mem _ hb)
        c (List.mem_cons_of_mem _ hc))

theorem strFalsy_false_of_parse (env : JsEnv) (o : Option String) (t : Int)
    (h : parseDate env o = some t) : strFalsy o = false := by
  rcases Bool.eq_false_or_eq_true (strFalsy o) with h' | h'
  · rw [parseDate_of_falsy env o h'] at h
    exact absurd h (by simp)
  · exact h'

theorem cmpDue_skew (env : JsEnv) (a b : AssignmentMatch) :
    0 < cmpDue env a b → cmpDue env b a ≤ 0 := by
  unfold cmpDue
  cases hfa : strFalsy a.asg.due_at <;> cases hfb : strFalsy b.asg.due_at <;>
    simp only [Bool.true_and, Bool.false_and, Bool.and_true, Bool.and_false,
      Bool.and_self, if_true, if_false, Bool.false_eq_true, Bool.true_eq_false]
  · cases hpa : parseDate env a.asg.due_at <;>
      cases hpb : parseDate env b.asg.due_at <;> dsimp only <;> omega
  · intro h
    omega
  · intro _
    omega
  · intro h
    omega

theorem cmpDue_trans (env : JsEnv) {a b c : AssignmentMatch}
    (ha : wellDated env a) (hb : wellDated env b) (hc : wellDated env c) :
    cmpDue env a b ≤ 0 → cmpDue env b c ≤ 0 → cmpDue env a c ≤ 0 := by
  unfold cmpDue
  cases hfa : strFalsy a.asg.due_at <;> cases hfb : strFalsy b.asg.due_at <;>
    cases hfc : strFalsy c.asg.due_at <;>
    simp only [Bool.true_and, Bool.false_and, Bool.and_true, Bool.and_false,
      Bool.and_self, if_true, if_false, Bool.false_eq_true, Bool.true_eq_false]
  · rcases ha with ha | ⟨ta, hpa⟩
    · rw [hfa] at ha
      exact absurd ha (by simp)
    rcases hb with hb | ⟨tb, hpb⟩
    · rw [hfb] at hb
      exact absurd hb (by simp)
    rcases hc with hc | ⟨tc, hpc⟩
    · rw [hfc] at hc
      exact absurd hc (by simp)
    rw [hpa, hpb, hpc]
    dsimp only
    omega
  · intro _ _
    omega
  · intro _ h
    exact absurd h (by omega)
  · intro _ _
    omega
  · intro h _
    exact absurd h (by omega)
  · intro h _
    exact absurd h (by omega)
  · intro _ h
    exact absurd h (by omega)
  · intro _ _
    omega

/-- C2 counterexample: with an unparsable (yet non-empty) `due_at` among the
results, the comparator is inconsistent and the output of the search violates the
claimed ordering — in the returned sequence the assignment due 2024-01-02
precedes the assignment due 2024-01-01 although both have parsed instants
and the instant of the latter is earlier. -/
theorem sortedSearchResultsCounterexample :
    searchResults envNone accThreeDates {} = .ok [mJan2, mGarbled, mJan1] ∧
    parseDate envNone mJan2.asg.due_at = some 1704153600000 ∧
    parseDate envNone mJan1.asg.due_at = some 1704067200000 ∧
    (1704067200000 : Int) < 1704153600000 := by
  refine ⟨rfl, by decide, by decide, by decide⟩

/-- C2 amended: provided every present `due_at` of the merged results parses
to an instant (so no due date is an empty or unparsable string), the
returned sequence is a permutation of the merged survivors, is ordered so
that an assignment lacking a due date never precedes one with a due date and
parsed instants are ascending, and the date-less assignments keep their
relative merge order. -/
theorem sortedSearchResults (env : JsEnv) (acc : Accessor) (p : SearchParams)
    (courses : List CanvasCourse) (r : List AssignmentMatch)
    (hres : resolveCourses acc p = .ok courses)
    (hp : ∀ m ∈ collectResults env acc p courses, m.asg.due_at ≠ none →
      (parseDate env m.asg.due_at).isSome = true)
    (hr : searchResults env acc p = .ok r) :
    r.Perm (collectResults env acc p courses) ∧
    r.Pairwise (fun x y =>
      (x.asg.due_at = none → y.asg.due_at = none) ∧
      ∀ tx ty, parseDate env x.asg.due_at = some tx →
        parseDate env y.asg.due_at = some ty → tx ≤ ty) ∧
    r.filter (fun m => m.asg.due_at.isNone) =
      (collectResults env acc p courses).filter (fun m => m.asg.due_at.isNone) := by
  have hrl : r = sortCmp (cmpDue env) (collectResults env acc p courses) := by
    unfold searchResults at hr
    rw [hres] at hr
    exact (Except.ok.injEq _ _ |>.mp hr).symm
  subst hrl
  set l := collectResults env acc p courses with hldef
  have hmem : ∀ m ∈ l, (strFalsy m.asg.due_at = true ↔ m.asg.due_at = none) ∧
      wellDated env m := by
    intro m hm
    cases hdm : m.asg.due_at with
    | none =>
      refine ⟨by simp [strFalsy], Or.inl ?_⟩
      rw [hdm]
      rfl
    | some s =>
      have hps : (parseDate env m.asg.due_at).isSome = true := by
        refine hp m hm ?_
        rw [hdm]
        simp
      rcases Option.isSome_iff_exists.mp hps with ⟨t, ht⟩
      have hfa := strFalsy_false_of_parse env m.asg.due_at t ht
      rw [hdm] at hfa
      constructor
      · rw [hfa]
        simp
      · exact Or.inr ⟨t, ht⟩
  refine ⟨sortCmp_perm _ l, ?_, ?_⟩
  · have hpw : (sortCmp (cmpDue env) l).Pairwise (fun a b => cmpDue env a b ≤ 0) := by
      refine pairwise_sortCmp (cmpDue env) (cmpDue_skew env) l ?_
      intro a ha b hb c hc
      exact cmpDue_trans env (hmem a ha).2 (hmem b hb).2 (hmem c hc).2
    refine hpw.imp_of_mem ?_
    intro x y hx hy hle
    have hxl : x ∈ l := (sortCmp_perm (cmpDue env) l).mem_iff.mp hx
    have hyl : y ∈ l := (sortCmp_perm (cmpDue env) l).mem_iff.mp hy
    constructor
    · intro hxn
      have hfx : strFalsy x.asg.due_at = true := (hmem x hxl).1.mpr hxn
      by_contra hyn
      have hfy : strFalsy y.asg.due_at = false := by
        rcases Bool.eq_false_or_eq_true (strFalsy y.asg.due_at) with h' | h'
        · exact absurd ((hmem y hyl).1.mp h') hyn
        · exact h'
      unfold cmpDue at hle
      rw [hfx, hfy] at hle
      simp at hle
    · intro tx ty hpx hpy
      have hfx := strFalsy_false_of_parse env x.asg.due_at tx hpx
      have hfy := strFalsy_false_of_parse env y.asg.due_at ty hpy
      unfold cmpDue at hle
      rw [hfx, hfy, hpx, hpy] at hle
      have hsub : tx - ty ≤ 0 := hle
      omega
  · have hfs : (sortCmp (cmpDue env) l).filter (fun m => strFalsy m.asg.due_at) =
        l.filter (fun m => strFalsy m.asg.due_at) := by
      refine filter_sortCmp (cmpDue env) _ l ?_
      intro x hx y
      unfold cmpDue
      rw [hx]
      cases hy : strFalsy y.asg.due_at <;> simp
    have hcongr : ∀ m ∈ l, strFalsy m.asg.due_at = m.asg.due_at.isNone := by
      intro m hm
      cases hdm : m.asg.due_at with
      | none => rfl
      | some s =>
        rcases (hmem m hm).2 with hf | ⟨t, ht⟩
        · have := (hmem m hm).1.mp hf
          rw [hdm] at this
          exact absurd this (by simp)
        · have hfa := strFalsy_false_of_parse env m.asg.due_at t ht
          rw [hdm] at hfa
          rw [hfa]
          rfl
    calc (sortCmp (cmpDue env) l).filter (fun m => m.asg.due_at.isNone)
        = (sortCmp (cmpDue env) l).filter (fun m => strFalsy m.asg.due_at) := by
          refine (List.filter_congr ?_).symm
          intro m hm
          exact hcongr m ((sortCmp_perm (cmpDue env) l).mem_iff.mp hm)
      _ = l.filter (fun m => strFalsy m.asg.due_at) := hfs
      _ = l.filter (fun m => m.asg.due_at.isNone) := List.filter_congr hcongr

/-- C2 witness: a concrete search whose due dates all parse; the returned
sequence is a sorted permutation with the date-less assignment kept last. -/
theorem sortedSearchResults_witness :
    (sortCmp (cmpDue envNone) (collectResults envNone accTwoDates {} [courseA])).Perm
      (collectResults envNone accTwoDates {} [courseA]) ∧
    (sortCmp (cmpDue envNone) (collectResults envNone accTwoDates {} [courseA])).Pairwise
      (fun x y =>
        (x.asg.due_at = none → y.asg.due_at = none) ∧
        ∀ tx ty, parseDate envNone x.asg.due_at = some tx →
          parseDate envNone y.asg.due_at = some ty → tx ≤ ty) ∧
    (sortCmp (cmpDue envNone) (collectResults envNone accTwoDates {} [courseA])).filter
        (fun m => m.asg.due_at.isNone) =
      (collectResults envNone accTwoDates {} [courseA]).filter
        (fun m => m.asg.due_at.isNone) :=
  sortedSearchResults envNone accTwoDates {} [courseA]
    (sortCmp (cmpDue envNone) (collectResults envNone accTwoDates {} [courseA]))
    rfl (by decide) rfl

theorem dch_val (k : Nat) : (dch k).toNat = 48 + k % 10 := by
  have h : k % 10 < 10 := Nat.mod_lt _ (by decide)
  unfold dch
  generalize hj : k % 10 = j
  rw [hj] at h
  interval_cases j <;> rfl

theorem dch_digit (k : Nat) : isDigitCh (dch k) = true := by
  have h : k % 10 < 10 := Nat.mod_lt _ (by decide)
  unfold dch isDigitCh
  generalize hj : k % 10 = j
  rw [hj] at h
  interval_cases j <;> rfl

theorem bareShape_bareStr (y m d : Nat) : bareShape (bareStr y m d) = true := by
  show bareShape ⟨_⟩ = true
  unfold bareShape
  simp [dch_digit]

theorem digitsVal_pad4 (y : Nat) (hy : y ≤ 9999) :
    digitsVal [dch (y / 1000), dch (y / 100), dch (y / 10), dch y] = y := by
  simp only [digitsVal, List.foldl_cons, List.foldl_nil, dch_val]
  omega

theorem digitsVal_pad2 (n : Nat) (hn : n ≤ 99) :
    digitsVal [dch (n / 10), dch n] = n := by
  simp only [digitsVal, List.foldl_cons, List.foldl_nil, dch_val]
  omega

theorem daysFromCivil_day (y m d : Int) :
    daysFromCivil y m 1 + (d - 1) = daysFromCivil y m d := by
  unfold daysFromCivil
  split_ifs <;> ring

theorem fdiv_small {a b : Int} (h0 : 0 ≤ a) (hb : a < b) : a.fdiv b = 0 := by
  rw [Int.fdiv_eq_ediv _ (by omega)]
  exact Int.ediv_eq_zero_of_lt h0 hb

theorem monthLen_le (y : Int) (m : Nat) : monthLen y m ≤ 31 := by
  unfold monthLen
  split_ifs <;> omega

theorem daysFromCivil_bound (y m d : Int) (hy : 99 ≤ y) (hy2 : y ≤ 9999)
    (hm : 1 ≤ m) (hm2 : m ≤ 12) (hd : 1 ≤ d) (hd2 : d ≤ 31) :
    (daysFromCivil y m d * 86400000).natAbs ≤ 8640000000000000 := by
  simp only [daysFromCivil]
  split_ifs <;>
  · have hA400 := Int.fdiv_add_fmod (y - 1) 400
    have hA400a := Int.fmod_nonneg' (y - 1) (b := 400) (by omega)
    have hA400b := Int.fmod_lt_of_pos (y - 1) (b := 400) (by omega)
    have hA4 := Int.fdiv_add_fmod ((y - 1) - (y - 1).fdiv 400 * 400) 4
    have hA4a := Int.fmod_nonneg' ((y - 1) - (y - 1).fdiv 400 * 400) (b := 4) (by omega)
    have hA4b := Int.fmod_lt_of_pos ((y - 1) - (y - 1).fdiv 400 * 400) (b := 4) (by omega)
    have hA100 := Int.fdiv_add_fmod ((y - 1) - (y - 1).fdiv 400 * 400) 100
    have hA100a := Int.fmod_nonneg' ((y - 1) - (y - 1).fdiv 400 * 400) (b := 100) (by omega)
    have hA100b := Int.fmod_lt_of_pos ((y - 1) - (y - 1).fdiv 400 * 400) (b := 100) (by omega)
    have hB400 := Int.fdiv_add_fmod y 400
    have hB400a := Int.fmod_nonneg' y (b := 400) (by omega)
    have hB400b := Int.fmod_lt_of_pos y (b := 400) (by omega)
    have hB4 := Int.fdiv_add_fmod (y - y.fdiv 400 * 400) 4
    have hB4a := Int.fmod_nonneg' (y - y.fdiv 400 * 400) (b := 4) (by omega)
    have hB4b := Int.fmod_lt_of_pos (y - y.fdiv 400 * 400) (b := 4) (by omega)
    have hB100 := Int.fdiv_add_fmod (y - y.fdiv 400 * 400) 100
    have hB100a := Int.fmod_nonneg' (y - y.fdiv 400 * 400) (b := 100) (by omega)
    have hB100b := Int.fmod_lt_of_pos (y - y.fdiv 400 * 400) (b := 100) (by omega)
    have hC5 := Int.fdiv_add_fmod (153 * (m + 9) + 2) 5
    have hC5a := Int.fmod_nonneg' (153 * (m + 9) + 2) (b := 5) (by omega)
    have hC5b := Int.fmod_lt_of_pos (153 * (m + 9) + 2) (b := 5) (by omega)
    have hD5 := Int.fdiv_add_fmod (153 * (m - 3) + 2) 5
    have hD5a := Int.fmod_nonneg' (153 * (m - 3) + 2) (b := 5) (by omega)
    have hD5b := Int.fmod_lt_of_pos (153 * (m - 3) + 2) (b := 5) (by omega)
    omega

theorem jsDateCtorMs_valid (y m d : Nat) (hy : 100 ≤ y) (hy2 : y ≤ 9999)
    (hm : 1 ≤ m) (hm2 : m ≤ 12) (hd : 1 ≤ d) (hd2 : d ≤ monthLen y m) :
    jsDateCtorMs y ((m : Int) - 1) d = some (86400000 * daysFromCivil y m d) := by
  have hd31 : d ≤ 31 := le_trans hd2 (monthLen_le y m)
  simp only [jsDateCtorMs]
  rw [if_neg (by omega : ¬(0 ≤ (y : Int) ∧ (y : Int) ≤ 99))]
  rw [fdiv_small (a := (m : Int) - 1) (b := 12) (by omega) (by omega)]
  have hdays : daysFromCivil ((y : Int) + 0) ((m : Int) - 1 - 12 * 0 + 1) 1 + ((d : Int) - 1) =
      daysFromCivil y m d := by
    rw [show ((y : Int) + 0) = (y : Int) from by ring,
      show ((m : Int) - 1 - 12 * 0 + 1) = (m : Int) from by ring]
    exact daysFromCivil_day _ _ _
  rw [hdays]
  rw [if_pos (daysFromCivil_bound y m d (by omega) (by omega) (by omega) (by omega)
    (by omega) (by omega))]
  rw [Int.mul_comm]

theorem parseDate_bare (env : JsEnv) (y m d : Nat) (hy : 100 ≤ y) (hy2 : y ≤ 9999)
    (hm : 1 ≤ m) (hm2 : m ≤ 12) (hd : 1 ≤ d) (hd2 : d ≤ monthLen y m) :
    parseDate env (some (bareStr y m d)) = some (86400000 * daysFromCivil y m d) := by
  have hd31 : d ≤ 31 := le_trans hd2 (monthLen_le _ _)
  unfold parseDate
  simp only [show strFalsy (some (bareStr y m d)) = false from rfl, Bool.false_eq_true,
    if_false, Option.getD_some, bareShape_bareStr, if_true]
  have hdata : (bareStr y m d).data =
      [dch (y / 1000), dch (y / 100), dch (y / 10), dch y, '-',
       dch (m / 10), dch m, '-', dch (d / 10), dch d] := rfl
  rw [hdata]
  simp only [List.take_succ_cons, List.take_zero, List.drop_succ_cons, List.drop_zero]
  rw [digitsVal_pad4 y (by omega), digitsVal_pad2 m (by omega), digitsVal_pad2 d (by omega)]
  exact jsDateCtorMs_valid y m d hy hy2 hm hm2 hd hd2

/-- C7 counterexample: a `YYYY-MM-DD`-shaped string with an out-of-range
month is **not** rejected — `2024-13-01` parses (to local midnight of
2025-01-01 by calendar rollover) instead of yielding `null`; and a
four-digit year below 100 is shifted by 1900, so `0042-01-01` denotes
midnight of 1942-01-01, not of year 42. -/
theorem parseDateRolloverCounterexample :
    parseDate envNone (some "2024-13-01") ≠ none ∧
    parseDate envNone (some "2024-13-01") =
      some (86400000 * daysFromCivil 2025 1 1) ∧
    parseDate envNone (some "0042-01-01") =
      some (86400000 * daysFromCivil 1942 1 1) := by
  refine ⟨by decide, by decide, by decide⟩

/-- C7 amended: `parseDate` is total (never raises) and returns `null` on a
`null`/empty input; a non-bare-shaped string is delegated to the generic
`new Date` parser of the runtime, so an unparseable string yields `null`; a
`YYYY-MM-DD`-shaped string is never rejected (out-of-range components roll
over, years 0-99 shift to 1900-1999); and a valid bare date with a
four-digit year ≥ 100 is interpreted exactly at local midnight of that
calendar day, with no UTC normalization. -/
theorem parseDateSpec (env : JsEnv) :
    parseDate env none = none ∧
    parseDate env (some "") = none ∧
    (∀ s : String, bareShape s = false → s ≠ "" →
      parseDate env (some s) = env.dateCtor s) ∧
    (∀ y m d : Nat, 100 ≤ y → y ≤ 9999 → 1 ≤ m → m ≤ 12 → 1 ≤ d →
      d ≤ monthLen y m →
      parseDate env (some (bareStr y m d)) =
        some (86400000 * daysFromCivil y m d)) ∧
    parseDate env (some "2024-13-01") = some (86400000 * daysFromCivil 2025 1 1) := by
  refine ⟨rfl, rfl, ?_, ?_, ?_⟩
  · intro s hshape hne
    unfold parseDate
    have hfalsy : strFalsy (some s) = false := by
      rcases Bool.eq_false_or_eq_true (strFalsy (some s)) with h' | h'
      · exact absurd ((strFalsy_some_iff s).mp h') hne
      · exact h'
    simp only [hfalsy, Bool.false_eq_true, if_false, Option.getD_some, hshape]
  · intro y m d hy hy2 hm hm2 hd hd2
    exact parseDate_bare env y m d hy hy2 hm hm2 hd hd2
  · have hshape : bareShape "2024-13-01" = true := by decide
    have hfalsy : strFalsy (some "2024-13-01") = false := by decide
    unfold parseDate
    simp only [hfalsy, Bool.false_eq_true, if_false, Option.getD_some, hshape, if_true]
    decide

/-- C7 witness: the amended statement applied at the concrete environment
`envNone` and the concrete date 2024-06-01 (whose local-midnight instant is
1717200000000 in the fixed-offset model). -/
theorem parseDateSpec_witness :
    parseDate envNone (some (bareStr 2024 6 1)) =
      some (86400000 * daysFromCivil 2024 6 1) ∧
    parseDate envNone (some "gibberish") = envNone.dateCtor "gibberish" :=
  ⟨(parseDateSpec envNone).2.2.2.1 2024 6 1 (by decide) (by decide) (by decide)
      (by decide) (by decide) (by decide),
   (parseDateSpec envNone).2.2.1 "gibberish" (by decide) (by decide)⟩
